import Mathlib

/-!
Shallow embedding of the Growth Momentum DCA strategy (src/strategy.py).

Prices are modelled as rationals.  External collaborator calls
(`get_bars`, `get_latest_quote`, `order`) are modelled as `Except`-valued
functions supplied by an `Env`; `Except.error` models a raised exception,
`Option.none` models a falsy/absent Python value.  The orchestrator `run`
produces a trace of events so temporal claims can be stated.
-/

namespace Strategy

/-- Universe of symbols, from the module constant `SYMBOLS`. -/
def SYMBOLS : List String := ["NVDA", "TSLA", "AMD", "QBTS", "RKLB"]

/-- Dollar budget per stock per execution (`DCA_AMOUNT = 100`). -/
def DCA_AMOUNT : ℚ := 100

/-- `SMA_PERIOD = 20`. -/
def SMA_PERIOD : ℕ := 20

/-- `RSI_PERIOD = 14`. -/
def RSI_PERIOD : ℕ := 14

/-- `RSI_THRESHOLD = 75`. -/
def RSI_THRESHOLD : ℚ := 75

/-- `VIX_THRESHOLD = 25`. -/
def VIX_THRESHOLD : ℚ := 25

/-- A daily bar; only the close price is read by the strategy. -/
structure Bar where
  close : ℚ
deriving DecidableEq, Repr

/-- A point-in-time quote.  Each field may be absent (Python `None`). -/
structure Quote where
  last_price : Option ℚ
  ask_price : Option ℚ
  bid_price : Option ℚ
deriving DecidableEq, Repr

/-- Handle returned by `client.execution.order`; `id` may be missing. -/
structure OrderHandle where
  id : Option String
deriving DecidableEq, Repr

/-- Python slice `l[-n:]`: the last `n` elements (the whole list when
`n = 0`, since `l[-0:] = l[0:]`, or when `n ≥ len(l)`). -/
def lastSlice (l : List ℚ) (n : ℕ) : List ℚ :=
  if n = 0 then l else l.drop (l.length - n)

/-- `np.mean`: sum divided by length (0 on the empty list, where numpy
would give NaN; theorems only use it on nonempty slices). -/
def mean (l : List ℚ) : ℚ := l.sum / (l.length : ℚ)

/-- Python `l[-1] if l else 0`: last element, 0 on the empty list. -/
def pyLast (l : List ℚ) : ℚ := l.getLast?.getD 0

/-- `np.diff`: successive differences. -/
def diff : List ℚ → List ℚ
  | a :: b :: rest => (b - a) :: diff (b :: rest)
  | _ => []

/-- `calculate_rsi(prices, period)` from src/strategy.py lines 38-55. -/
def calculate_rsi (prices : List ℚ) (period : ℕ) : ℚ :=
  if prices.length < period + 1 then 50
  else
    let deltas := diff prices
    let gains := deltas.map (fun d => if d > 0 then d else 0)
    let losses := deltas.map (fun d => if d < 0 then -d else 0)
    let avg_gain := mean (lastSlice gains period)
    let avg_loss := mean (lastSlice losses period)
    if avg_loss = 0 then 100
    else
      let rs := avg_gain / avg_loss
      100 - 100 / (1 + rs)

/-- `calculate_sma(prices, period)` from src/strategy.py lines 58-62. -/
def calculate_sma (prices : List ℚ) (period : ℕ) : ℚ :=
  if prices.length < period then pyLast prices
  else mean (lastSlice prices period)

/-- `get_historical_closes`: returns the closes of the fetched bars, `[]`
when the fetch raises, returns a falsy value or an empty sequence. -/
def get_historical_closes (fetch : Except String (Option (List Bar))) :
    List ℚ :=
  match fetch with
  | .error _ => []
  | .ok none => []
  | .ok (some bars) => if bars.length > 0 then bars.map Bar.close else []

/-- `vix_quote.last_price if vix_quote else 0`: the VIX level read from
the quote; `none` models a Python `None` level (whose comparison with the
threshold would raise and be caught by the bare `except`). -/
def vix_level (vq : Option Quote) : Option ℚ :=
  match vq with
  | none => some 0
  | some q => q.last_price

/-- The inner `try`/bare-`except` block of `is_market_risky`: true iff the
VIX fetch succeeds and yields a level strictly above the threshold; any
exception (fetch error or `None` level) yields false. -/
def vixSubcheck (vixFetch : Except String (Option Quote)) : Bool :=
  match vixFetch with
  | .error _ => false
  | .ok vq =>
    match vix_level vq with
    | none => false
    | some v => decide (v > VIX_THRESHOLD)

/-- Body of `is_market_risky` (inside its outer `try`), lines 88-105. -/
def is_market_risky_body (spyFetch : Except String (Option (List Bar)))
    (vixFetch : Except String (Option Quote)) : Except String Bool :=
  let spy_closes := get_historical_closes spyFetch
  if spy_closes ≠ [] ∧ calculate_rsi spy_closes RSI_PERIOD > RSI_THRESHOLD
  then Except.ok true
  else if vixSubcheck vixFetch then Except.ok true
  else Except.ok false

/-- The outer `except Exception` handler of `is_market_risky`: any escaped
exception is mapped to `False` (fail-open for the whole gate). -/
def risk_check_catch (r : Except String Bool) : Bool :=
  match r with
  | .ok b => b
  | .error _ => false

/-- `is_market_risky` from src/strategy.py lines 86-108. -/
def is_market_risky (spyFetch : Except String (Option (List Bar)))
    (vixFetch : Except String (Option Quote)) : Bool :=
  risk_check_catch (is_market_risky_body spyFetch vixFetch)

/-- The external collaborator (CPZ client): per-symbol bar history and
quote fetches, and order submission, each of which may raise. -/
structure Env where
  bars : String → Except String (Option (List Bar))
  quote : String → Except String (Option Quote)
  order : String → ℕ → Except String (Option OrderHandle)

/-- `is_in_uptrend` from src/strategy.py lines 111-128. -/
def is_in_uptrend (env : Env) (sym : String) : Bool :=
  let closes := get_historical_closes (env.bars sym)
  if closes.isEmpty ∨ closes.length < SMA_PERIOD then false
  else
    let current_price := pyLast closes
    let sma := calculate_sma closes SMA_PERIOD
    decide (current_price > sma)

/-- Python's `a or b` on optional prices: `b` when `a` is `None` or `0`. -/
def pyOr (a b : Option ℚ) : Option ℚ :=
  match a with
  | none => b
  | some x => if x = 0 then b else some x

/-- `quote.last_price or quote.ask_price or quote.bid_price`. -/
def effectivePrice (q : Quote) : Option ℚ :=
  pyOr (pyOr q.last_price q.ask_price) q.bid_price

/-- Observable events of one `run`, for stating temporal claims. -/
inductive Event where
  | riskCheck (risky : Bool)
  | trendCheck (sym : String) (up : Bool)
  | orderCall (sym : String) (qty : ℕ)
  | errorCaught (sym : String)
  | summary (placed : ℕ) (total : ℕ)
deriving DecidableEq, Repr

/-- Sizing and submission once a positive effective price is in hand
(`shares = int(DCA_AMOUNT / current_price)` onwards, lines 170-189). -/
def orderAtPrice (env : Env) (sym : String) (p : ℚ) : List Event × ℕ :=
  let shares : ℤ := ⌊DCA_AMOUNT / p⌋
  if shares ≤ 0 then ([], 0)
  else
    match env.order sym shares.toNat with
    | .error _ =>
      ([Event.orderCall sym shares.toNat, Event.errorCaught sym], 0)
    | .ok none => ([Event.orderCall sym shares.toNat], 0)
    | .ok (some _) => ([Event.orderCall sym shares.toNat], 1)

/-- `if not current_price or current_price <= 0: continue` (line 166). -/
def priceGuard (env : Env) (sym : String) :
    Option ℚ → List Event × ℕ
  | none => ([], 0)
  | some p => if p ≤ 0 then ([], 0) else orderAtPrice env sym p

/-- `if not quote: continue`, then the effective-price fallback
(lines 160-165); a raised quote fetch is caught by the symbol's
`except` handler. -/
def quoteGuard (env : Env) (sym : String) :
    Except String (Option Quote) → List Event × ℕ
  | .error _ => ([Event.errorCaught sym], 0)
  | .ok none => ([], 0)
  | .ok (some q) => priceGuard env sym (effectivePrice q)

/-- The `try` block of `run`'s per-symbol loop (lines 159-193): quote
fetch, effective-price fallback, sizing, and order submission.  Returns
the emitted events and the `orders_placed` increment. -/
def tryOrderStep (env : Env) (sym : String) : List Event × ℕ :=
  quoteGuard env sym (env.quote sym)

/-- One iteration of `run`'s symbol loop: trend gate, then (on
eligibility) the guarded quote/order step. -/
def processSymbol (env : Env) (sym : String) : List Event × ℕ :=
  if is_in_uptrend env sym then
    let r := tryOrderStep env sym
    (Event.trendCheck sym true :: r.fst, r.snd)
  else ([Event.trendCheck sym false], 0)

/-- `run` from src/strategy.py lines 131-197, as an event trace.  An
early `return` on a risky market skips the loop and the summary. -/
def run (env : Env) : List Event :=
  if is_market_risky (env.bars "SPY") (env.quote "VIX") then
    [Event.riskCheck true]
  else
    let results := SYMBOLS.map (fun s => processSymbol env s)
    Event.riskCheck false ::
      ((results.map Prod.fst).flatten ++
        [Event.summary ((results.map Prod.snd).sum) SYMBOLS.length])

/-- The buy orders submitted in a trace: (symbol, quantity) pairs. -/
def ordersOf (evts : List Event) : List (String × ℕ) :=
  evts.filterMap fun e =>
    match e with
    | .orderCall s n => some (s, n)
    | _ => none

/-! ### Supporting lemmas about the embedded helpers -/

lemma lastSlice_of_ne_zero (l : List ℚ) {n : ℕ} (hn : n ≠ 0) :
    lastSlice l n = l.drop (l.length - n) := by
  unfold lastSlice
  rw [if_neg hn]

lemma mem_lastSlice {x : ℚ} {l : List ℚ} {n : ℕ} (h : x ∈ lastSlice l n) :
    x ∈ l := by
  unfold lastSlice at h
  split at h
  · exact h
  · exact List.mem_of_mem_drop h

lemma lastSlice_append (a b : List ℚ) {n : ℕ} (hn : n ≠ 0)
    (h : n ≤ b.length) : lastSlice (a ++ b) n = lastSlice b n := by
  rw [lastSlice_of_ne_zero _ hn, lastSlice_of_ne_zero _ hn]
  have he : (a ++ b).length - n = a.length + (b.length - n) := by
    rw [List.length_append]
    omega
  rw [he, List.drop_append]

lemma diff_cons_cons (a b : ℚ) (r : List ℚ) :
    diff (a :: b :: r) = (b - a) :: diff (b :: r) := rfl

lemma diff_length (l : List ℚ) : (diff l).length = l.length - 1 := by
  induction l with
  | nil => simp [diff]
  | cons a t ih =>
    cases t with
    | nil => simp [diff]
    | cons b r =>
      rw [diff_cons_cons]
      simp only [List.length_cons] at ih ⊢
      omega

lemma diff_append (pre l : List ℚ) (hl : l ≠ []) :
    ∃ A : List ℚ, diff (pre ++ l) = A ++ diff l := by
  induction pre with
  | nil => exact ⟨[], rfl⟩
  | cons p ps ih =>
    obtain ⟨A, hA⟩ := ih
    have hne : ps ++ l ≠ [] := by
      intro h
      exact hl (List.append_eq_nil.mp h).2
    obtain ⟨b, r, hbr⟩ := List.exists_cons_of_ne_nil hne
    refine ⟨(b - p) :: A, ?_⟩
    have hc : (p :: ps) ++ l = p :: (ps ++ l) := rfl
    rw [hc, hbr, diff_cons_cons, ← hbr, hA]
    rfl

lemma diff_pos_of_chain {l : List ℚ} (h : List.Chain' (· < ·) l) :
    ∀ d ∈ diff l, 0 < d := by
  induction l with
  | nil => intro d hd; simp [diff] at hd
  | cons a t ih =>
    cases t with
    | nil => intro d hd; simp [diff] at hd
    | cons b r =>
      rw [List.chain'_cons] at h
      intro d hd
      rw [diff_cons_cons] at hd
      rcases List.mem_cons.mp hd with h1 | h2
      · subst h1; linarith [h.1]
      · exact ih h.2 d h2

lemma mean_nonneg {l : List ℚ} (h : ∀ x ∈ l, 0 ≤ x) : 0 ≤ mean l :=
  div_nonneg (List.sum_nonneg h) (Nat.cast_nonneg _)

lemma mean_eq_zero_of_zeros {l : List ℚ} (h : ∀ x ∈ l, x = 0) :
    mean l = 0 := by
  unfold mean
  rw [List.sum_eq_zero h, zero_div]

/-- `calculate_rsi` on sufficient data, with the local bindings
substituted, for reasoning about the main branch. -/
lemma calculate_rsi_eq (prices : List ℚ) (period : ℕ)
    (h : ¬ prices.length < period + 1) :
    calculate_rsi prices period =
      if mean (lastSlice ((diff prices).map
            (fun d => if d < 0 then -d else 0)) period) = 0
      then 100
      else 100 - 100 / (1 +
        mean (lastSlice ((diff prices).map
          (fun d => if d > 0 then d else 0)) period) /
        mean (lastSlice ((diff prices).map
          (fun d => if d < 0 then -d else 0)) period)) := by
  unfold calculate_rsi
  rw [if_neg h]

/-- `calculate_sma` with at least `period` prices is the mean of the
final `period` prices. -/
lemma calculate_sma_eq_mean (prices : List ℚ) (period : ℕ)
    (hp : period ≠ 0) (h : period ≤ prices.length) :
    calculate_sma prices period
      = (prices.drop (prices.length - period)).sum / (period : ℚ) := by
  unfold calculate_sma
  rw [if_neg (by omega)]
  unfold mean
  rw [lastSlice_of_ne_zero _ hp]
  have hlen : (prices.drop (prices.length - period)).length = period := by
    rw [List.length_drop]
    omega
  rw [hlen]

lemma calculate_rsi_nil (period : ℕ) : calculate_rsi [] period = 50 := by
  unfold calculate_rsi
  rw [if_pos (by simp)]

/-! ### Claim theorems: indicator library -/

/-- C7: for sequences of length ≥ period (period ≥ 1), `calculate_sma`
is the arithmetic mean of the final `period` elements; for shorter
nonempty sequences it is the most recent price; for the empty sequence
it is 0. -/
theorem calculate_sma_spec (prices : List ℚ) (period : ℕ)
    (hp : 1 ≤ period) :
    (period ≤ prices.length →
      calculate_sma prices period
        = (prices.drop (prices.length - period)).sum / (period : ℚ)) ∧
    (∀ h : prices ≠ [], prices.length < period →
      calculate_sma prices period = prices.getLast h) ∧
    calculate_sma [] period = 0 := by
  refine ⟨?_, ?_, ?_⟩
  · intro hlen
    exact calculate_sma_eq_mean prices period (by omega) hlen
  · intro h hlen
    unfold calculate_sma
    rw [if_pos hlen]
    unfold pyLast
    rw [List.getLast?_eq_getLast prices h]
    rfl
  · unfold calculate_sma
    rw [if_pos (by simpa using hp)]
    rfl

/-- C8: `calculate_rsi` is exactly 50 whenever fewer than `period + 1`
prices are given, and exactly 100 on any strictly increasing sequence of
length ≥ `period + 1` (for period ≥ 1). -/
theorem calculate_rsi_edge_cases (prices : List ℚ) (period : ℕ) :
    (prices.length < period + 1 → calculate_rsi prices period = 50) ∧
    (1 ≤ period → List.Chain' (· < ·) prices →
      period + 1 ≤ prices.length → calculate_rsi prices period = 100) := by
  constructor
  · intro h
    unfold calculate_rsi
    rw [if_pos h]
  · intro hp hchain hlen
    rw [calculate_rsi_eq prices period (by omega)]
    have hzero : ∀ x ∈ lastSlice ((diff prices).map
        (fun d => if d < 0 then -d else 0)) period, x = 0 := by
      intro x hx
      obtain ⟨d, hd, hdx⟩ := List.mem_map.mp (mem_lastSlice hx)
      have hdpos : 0 < d := diff_pos_of_chain hchain d hd
      rw [← hdx, if_neg (by linarith)]
    rw [mean_eq_zero_of_zeros hzero]
    rfl

/-- C9: `calculate_rsi` always lies in the closed interval [0, 100]. -/
theorem calculate_rsi_bounds (prices : List ℚ) (period : ℕ)
    (hp : 1 ≤ period) :
    0 ≤ calculate_rsi prices period ∧ calculate_rsi prices period ≤ 100 := by
  by_cases h : prices.length < period + 1
  · unfold calculate_rsi
    rw [if_pos h]
    norm_num
  · rw [calculate_rsi_eq prices period h]
    set g := mean (lastSlice ((diff prices).map
      (fun d => if d > 0 then d else 0)) period) with hg
    set l := mean (lastSlice ((diff prices).map
      (fun d => if d < 0 then -d else 0)) period) with hl
    have hg0 : 0 ≤ g := by
      rw [hg]
      apply mean_nonneg
      intro x hx
      obtain ⟨d, hd, hdx⟩ := List.mem_map.mp (mem_lastSlice hx)
      rw [← hdx]
      split
      next hc => linarith
      next => exact le_refl 0
    have hl0 : 0 ≤ l := by
      rw [hl]
      apply mean_nonneg
      intro x hx
      obtain ⟨d, hd, hdx⟩ := List.mem_map.mp (mem_lastSlice hx)
      rw [← hdx]
      split
      next hc => linarith
      next => exact le_refl 0
    by_cases hlz : l = 0
    · rw [if_pos hlz]
      norm_num
    · rw [if_neg hlz]
      have hrs : 0 ≤ g / l := div_nonneg hg0 hl0
      have hub : 100 / (1 + g / l) ≤ 100 :=
        div_le_self (by norm_num) (by linarith)
      have hlb : 0 < 100 / (1 + g / l) := by positivity
      constructor
      · linarith
      · linarith

/-- C10: prepending older prices changes neither `calculate_sma`
(length ≥ period) nor `calculate_rsi` (length ≥ period + 1): both read
only their trailing window (period ≥ 1). -/
theorem trailing_window_invariance (pre l : List ℚ) (period : ℕ)
    (hp : 1 ≤ period) :
    (period ≤ l.length →
      calculate_sma (pre ++ l) period = calculate_sma l period) ∧
    (period + 1 ≤ l.length →
      calculate_rsi (pre ++ l) period = calculate_rsi l period) := by
  constructor
  · intro hlen
    unfold calculate_sma
    rw [if_neg (by rw [List.length_append]; omega), if_neg (by omega),
      lastSlice_append pre l (by omega) hlen]
  · intro hlen
    have hlnil : l ≠ [] := by
      intro h
      subst h
      simp at hlen
    obtain ⟨A, hA⟩ := diff_append pre l hlnil
    have hdl : period ≤ (diff l).length := by
      rw [diff_length]
      omega
    have e1 : lastSlice ((diff (pre ++ l)).map
          (fun d => if d > 0 then d else 0)) period
        = lastSlice ((diff l).map (fun d => if d > 0 then d else 0))
            period := by
      rw [hA, List.map_append]
      exact lastSlice_append _ _ (by omega) (by rw [List.length_map]; exact hdl)
    have e2 : lastSlice ((diff (pre ++ l)).map
          (fun d => if d < 0 then -d else 0)) period
        = lastSlice ((diff l).map (fun d => if d < 0 then -d else 0))
            period := by
      rw [hA, List.map_append]
      exact lastSlice_append _ _ (by omega) (by rw [List.length_map]; exact hdl)
    rw [calculate_rsi_eq _ _ (by rw [List.length_append]; omega),
      calculate_rsi_eq _ _ (by omega), e1, e2]


/-! ### Characterization lemmas for the gates -/

lemma is_market_risky_eq (spyFetch : Except String (Option (List Bar)))
    (vixFetch : Except String (Option Quote)) :
    is_market_risky spyFetch vixFetch =
      if get_historical_closes spyFetch ≠ [] ∧
          calculate_rsi (get_historical_closes spyFetch) RSI_PERIOD
            > RSI_THRESHOLD
      then true
      else vixSubcheck vixFetch := by
  simp only [is_market_risky, is_market_risky_body]
  split
  · rfl
  · cases hv : vixSubcheck vixFetch
    · rfl
    · rfl

lemma is_in_uptrend_eq (env : Env) (sym : String) :
    is_in_uptrend env sym =
      if (get_historical_closes (env.bars sym)).isEmpty
          ∨ (get_historical_closes (env.bars sym)).length < SMA_PERIOD
      then false
      else decide (pyLast (get_historical_closes (env.bars sym)) >
        calculate_sma (get_historical_closes (env.bars sym)) SMA_PERIOD) :=
  rfl

/-! ### Claim theorems: gates -/

/-- Bars whose closes are exactly the given series. -/
def barsOf (cs : List ℚ) : List Bar := cs.map Bar.mk

lemma get_historical_closes_barsOf (cs : List ℚ) :
    get_historical_closes (.ok (some (barsOf cs))) = cs := by
  cases cs with
  | nil => rfl
  | cons a t =>
    simp only [get_historical_closes, barsOf]
    rw [if_pos (by simp), List.map_map,
      show Bar.close ∘ Bar.mk = id from rfl, List.map_id]

/-- C1: the risk gate is an OR of the two checks: RSI above threshold
alone suffices (whatever the VIX fetch yields), a VIX level above
threshold alone suffices, and with both within bounds it is not risky. -/
theorem is_market_risky_or_spec (cs : List ℚ) (v : ℚ) (a b : Option ℚ)
    (vf : Except String (Option Quote)) :
    (calculate_rsi cs 14 > 75 →
      is_market_risky (.ok (some (barsOf cs))) vf = true) ∧
    (v > 25 →
      is_market_risky (.ok (some (barsOf cs)))
        (.ok (some ⟨some v, a, b⟩)) = true) ∧
    (calculate_rsi cs 14 ≤ 75 → v ≤ 25 →
      is_market_risky (.ok (some (barsOf cs)))
        (.ok (some ⟨some v, a, b⟩)) = false) := by
  have hcs := get_historical_closes_barsOf cs
  refine ⟨?_, ?_, ?_⟩
  · intro hr
    have hne : cs ≠ [] := by
      intro h
      subst h
      rw [calculate_rsi_nil] at hr
      norm_num at hr
    rw [is_market_risky_eq, hcs,
      if_pos ⟨hne, by simpa only [RSI_PERIOD, RSI_THRESHOLD] using hr⟩]
  · intro hv
    have hvix : vixSubcheck (.ok (some ⟨some v, a, b⟩)) = true := by
      simp only [vixSubcheck, vix_level, VIX_THRESHOLD]
      simpa using hv
    rw [is_market_risky_eq, hcs]
    split
    · rfl
    · exact hvix
  · intro hr hv
    have hvix : vixSubcheck (.ok (some ⟨some v, a, b⟩)) = false := by
      simp only [vixSubcheck, vix_level, VIX_THRESHOLD]
      simpa using hv
    rw [is_market_risky_eq, hcs,
      if_neg (by
        rintro ⟨-, hgt⟩
        simp only [RSI_PERIOD, RSI_THRESHOLD] at hgt
        exact absurd hgt (not_lt.mpr hr))]
    exact hvix

/-- C5: with the VIX fetch raising, the gate's outcome is exactly the
RSI check's (fail-open for the sub-check); and the outer handler maps
any escaped exception to "not risky" (fail-open for the whole gate). -/
theorem is_market_risky_fail_open
    (spyFetch : Except String (Option (List Bar))) (e e2 : String) :
    is_market_risky spyFetch (.error e)
      = decide (calculate_rsi (get_historical_closes spyFetch)
          RSI_PERIOD > RSI_THRESHOLD) ∧
    risk_check_catch (.error e2) = false := by
  constructor
  · rw [is_market_risky_eq]
    have hvix : vixSubcheck (.error e) = false := rfl
    by_cases hr : calculate_rsi (get_historical_closes spyFetch)
        RSI_PERIOD > RSI_THRESHOLD
    · by_cases hne : get_historical_closes spyFetch = []
      · rw [hne, calculate_rsi_nil] at hr
        norm_num [RSI_THRESHOLD] at hr
      · rw [if_pos ⟨hne, hr⟩]
        simp [hr]
    · rw [if_neg (by rintro ⟨-, hgt⟩; exact hr hgt), hvix]
      simp [hr]
  · rfl

/-- C2: the trend gate is true iff the last close strictly exceeds the
mean of the last 20 closes, and false whenever fewer than 20 closes were
fetched. -/
theorem is_in_uptrend_spec (env : Env) (sym : String) (bars : List Bar)
    (hb : env.bars sym = .ok (some bars)) :
    (20 ≤ (bars.map Bar.close).length →
      (is_in_uptrend env sym = true ↔
        pyLast (bars.map Bar.close) >
          ((bars.map Bar.close).drop ((bars.map Bar.close).length - 20)).sum
            / ((20 : ℕ) : ℚ))) ∧
    ((bars.map Bar.close).length < 20 → is_in_uptrend env sym = false) := by
  have hcl : get_historical_closes (env.bars sym) = bars.map Bar.close
      ∨ (get_historical_closes (env.bars sym) = []
          ∧ (bars.map Bar.close).length = 0) := by
    rw [hb]
    by_cases hlen : bars.length > 0
    · left
      simp only [get_historical_closes]
      rw [if_pos hlen]
    · right
      refine ⟨?_, ?_⟩
      · simp only [get_historical_closes]
        rw [if_neg hlen]
      · rw [List.length_map]
        omega
  constructor
  · intro hlen
    have hcl' : get_historical_closes (env.bars sym)
        = bars.map Bar.close := by
      rcases hcl with h | ⟨-, h0⟩
      · exact h
      · omega
    have hcond : ¬((bars.map Bar.close).isEmpty = true
        ∨ (bars.map Bar.close).length < 20) := by
      intro hor
      rcases hor with he | hlt
      · rw [List.isEmpty_iff] at he
        rw [he] at hlen
        simp at hlen
      · omega
    rw [is_in_uptrend_eq]
    simp only [SMA_PERIOD]
    rw [hcl', if_neg hcond, decide_eq_true_iff,
      calculate_sma_eq_mean _ _ (by norm_num) hlen]
  · intro hlen
    rw [is_in_uptrend_eq]
    simp only [SMA_PERIOD]
    rcases hcl with h | ⟨h, -⟩
    · rw [h, if_pos (Or.inr hlen)]
    · rw [h]
      simp

/-! ### Concrete inputs used by the witnesses -/

/-- A strictly increasing 15-element price series. -/
def cs0 : List ℚ := [0, 1, 2, 3, 4, 5, 6, 7, 8, 9, 10, 11, 12, 13, 14]

/-- Twenty increasing daily bars. -/
def upBars : List Bar :=
  [⟨1⟩, ⟨2⟩, ⟨3⟩, ⟨4⟩, ⟨5⟩, ⟨6⟩, ⟨7⟩, ⟨8⟩, ⟨9⟩, ⟨10⟩, ⟨11⟩, ⟨12⟩, ⟨13⟩,
   ⟨14⟩, ⟨15⟩, ⟨16⟩, ⟨17⟩, ⟨18⟩, ⟨19⟩, ⟨20⟩]

/-- Witness for C7 at concrete inputs. -/
theorem calculate_sma_spec_witness :
    calculate_sma [1, 2, 3, 4] 2
      = (([1, 2, 3, 4] : List ℚ).drop (([1, 2, 3, 4] : List ℚ).length - 2)).sum
        / ((2 : ℕ) : ℚ) ∧
    calculate_sma [5] 3 = ([5] : List ℚ).getLast (by decide) ∧
    calculate_sma [] 3 = 0 :=
  ⟨(calculate_sma_spec [1, 2, 3, 4] 2 (by decide)).1 (by decide),
   (calculate_sma_spec [5] 3 (by decide)).2.1 (by decide) (by decide),
   (calculate_sma_spec [] 3 (by decide)).2.2⟩

/-- Witness for C8 at concrete inputs. -/
theorem calculate_rsi_edge_cases_witness :
    calculate_rsi [1, 2] 14 = 50 ∧ calculate_rsi cs0 14 = 100 :=
  ⟨(calculate_rsi_edge_cases [1, 2] 14).1 (by decide),
   (calculate_rsi_edge_cases cs0 14).2 (by decide)
     (by norm_num [cs0, List.chain'_cons]) (by decide)⟩

/-- Witness for C9 at a concrete input. -/
theorem calculate_rsi_bounds_witness :
    0 ≤ calculate_rsi [3, 1, 2] 14 ∧ calculate_rsi [3, 1, 2] 14 ≤ 100 :=
  calculate_rsi_bounds [3, 1, 2] 14 (by decide)

/-- Witness for C10 at concrete inputs. -/
theorem trailing_window_invariance_witness :
    calculate_sma ([100] ++ [1, 2]) 2 = calculate_sma [1, 2] 2 ∧
    calculate_rsi ([100] ++ cs0) 14 = calculate_rsi cs0 14 :=
  ⟨(trailing_window_invariance [100] [1, 2] 2 (by decide)).1 (by decide),
   (trailing_window_invariance [100] cs0 14 (by decide)).2 (by decide)⟩

/-- Witness for C1 at concrete inputs. -/
theorem is_market_risky_or_spec_witness :
    is_market_risky (.ok (some (barsOf cs0)))
      (.ok (some ⟨some 10, none, none⟩)) = true ∧
    is_market_risky (.ok (some (barsOf ([] : List ℚ))))
      (.ok (some ⟨some 30, none, none⟩)) = true ∧
    is_market_risky (.ok (some (barsOf ([] : List ℚ))))
      (.ok (some ⟨some 10, none, none⟩)) = false :=
  ⟨(is_market_risky_or_spec cs0 10 none none
      (.ok (some ⟨some 10, none, none⟩))).1
      (by norm_num [calculate_rsi, cs0, diff, mean, lastSlice]),
   (is_market_risky_or_spec [] 30 none none
      (.ok (some ⟨some 30, none, none⟩))).2.1 (by norm_num),
   (is_market_risky_or_spec [] 10 none none
      (.ok (some ⟨some 10, none, none⟩))).2.2
      (by rw [calculate_rsi_nil]; norm_num) (by norm_num)⟩

/-! ### Environments used by the orchestrator witnesses -/

/-- An environment whose VIX quote is above threshold (risky market). -/
def envRisky : Env where
  bars := fun _ => .ok none
  quote := fun s =>
    if s = "VIX" then .ok (some ⟨some 30, none, none⟩) else .ok none
  order := fun _ _ => .ok none

/-- An environment with a calm market, uptrending symbols (short data for
QBTS), a quote-fetch exception for TSLA, and $45 quotes elsewhere. -/
def envPartial : Env where
  bars := fun s =>
    if s = "SPY" then .ok none
    else if s = "QBTS" then .ok (some [⟨1⟩, ⟨2⟩, ⟨3⟩])
    else .ok (some upBars)
  quote := fun s =>
    if s = "VIX" then .ok (some ⟨some 10, none, none⟩)
    else if s = "TSLA" then .error "boom"
    else .ok (some ⟨some 45, none, none⟩)
  order := fun _ _ => .ok (some ⟨some "oid"⟩)

/-- Witness for C2 at concrete inputs. -/
theorem is_in_uptrend_spec_witness :
    (is_in_uptrend envPartial "NVDA" = true ↔
      pyLast (upBars.map Bar.close) >
        ((upBars.map Bar.close).drop ((upBars.map Bar.close).length - 20)).sum
          / ((20 : ℕ) : ℚ)) ∧
    is_in_uptrend envPartial "QBTS" = false :=
  ⟨(is_in_uptrend_spec envPartial "NVDA" upBars rfl).1 (by decide),
   (is_in_uptrend_spec envPartial "QBTS" [⟨1⟩, ⟨2⟩, ⟨3⟩] rfl).2 (by decide)⟩

/-! ### Claim theorems: orchestrator -/

lemma processSymbol_head (env : Env) (s : String) :
    ∃ rest, (processSymbol env s).fst
      = Event.trendCheck s (is_in_uptrend env s) :: rest := by
  unfold processSymbol
  cases hu : is_in_uptrend env s
  · exact ⟨[], rfl⟩
  · exact ⟨(tryOrderStep env s).fst, rfl⟩

lemma processSymbol_of_uptrend (env : Env) (sym : String)
    (hup : is_in_uptrend env sym = true) :
    (processSymbol env sym).fst
      = Event.trendCheck sym true :: (tryOrderStep env sym).fst := by
  unfold processSymbol
  rw [hup]
  rfl

/-- C4: a risky market halts the run right after the gate: the trace is
just the risk check, with no order submissions and no trend checks. -/
theorem risky_halts_run (env : Env)
    (h : is_market_risky (env.bars "SPY") (env.quote "VIX") = true) :
    run env = [Event.riskCheck true] ∧
    (∀ s n, Event.orderCall s n ∉ run env) ∧
    (∀ s b, Event.trendCheck s b ∉ run env) := by
  have hrun : run env = [Event.riskCheck true] := by
    unfold run
    rw [h]
    rfl
  refine ⟨hrun, ?_, ?_⟩
  · intro s n hmem
    rw [hrun] at hmem
    simp at hmem
  · intro s b hmem
    rw [hrun] at hmem
    simp at hmem

/-- Witness for C4 at a concrete environment. -/
theorem risky_halts_run_witness :
    run envRisky = [Event.riskCheck true] ∧
    Event.orderCall "NVDA" 2 ∉ run envRisky ∧
    Event.trendCheck "NVDA" true ∉ run envRisky := by
  have h := risky_halts_run envRisky (by
    have h1 : envRisky.bars "SPY" = .ok none := rfl
    have h2 : envRisky.quote "VIX" = .ok (some ⟨some 30, none, none⟩) := rfl
    rw [is_market_risky_eq, h1, h2]
    norm_num [get_historical_closes, vixSubcheck, vix_level, VIX_THRESHOLD])
  exact ⟨h.1, h.2.1 "NVDA" 2, h.2.2 "NVDA" true⟩

/-- C6: when the market is not risky, every symbol of the universe gets
its trend check (whatever per-symbol exceptions occur) and the run ends
at its summary. -/
theorem symbol_error_isolation (env : Env)
    (h : is_market_risky (env.bars "SPY") (env.quote "VIX") = false) :
    (∀ s ∈ SYMBOLS, Event.trendCheck s (is_in_uptrend env s) ∈ run env) ∧
    (∃ n, (run env).getLast? = some (Event.summary n SYMBOLS.length)) := by
  have hrun : run env = Event.riskCheck false ::
      (((SYMBOLS.map (fun s => processSymbol env s)).map Prod.fst).flatten
        ++ [Event.summary (((SYMBOLS.map (fun s => processSymbol env s)).map
            Prod.snd).sum) SYMBOLS.length]) := by
    unfold run
    rw [h]
    rfl
  constructor
  · intro s hs
    rw [hrun]
    obtain ⟨rest, hr⟩ := processSymbol_head env s
    refine List.mem_cons_of_mem _ (List.mem_append_left _ ?_)
    rw [List.mem_flatten]
    refine ⟨(processSymbol env s).fst, ?_, ?_⟩
    · exact List.mem_map_of_mem Prod.fst
        (List.mem_map_of_mem (fun s => processSymbol env s) hs)
    · rw [hr]
      exact List.mem_cons_self _ _
  · refine ⟨((SYMBOLS.map (fun s => processSymbol env s)).map Prod.snd).sum,
      ?_⟩
    rw [hrun, ← List.cons_append]
    exact List.getLast?_concat _

/-- Witness for C6 at a concrete environment with a TSLA quote error. -/
theorem symbol_error_isolation_witness :
    Event.trendCheck "RKLB" (is_in_uptrend envPartial "RKLB")
      ∈ run envPartial ∧
    (∃ n, (run envPartial).getLast?
      = some (Event.summary n SYMBOLS.length)) := by
  have h := symbol_error_isolation envPartial (by
    have h1 : envPartial.bars "SPY" = .ok none := rfl
    have h2 : envPartial.quote "VIX" = .ok (some ⟨some 10, none, none⟩) := rfl
    rw [is_market_risky_eq, h1, h2]
    norm_num [get_historical_closes, vixSubcheck, vix_level, VIX_THRESHOLD])
  exact ⟨h.1 "RKLB" (by decide), h.2⟩

lemma ordersOf_trend_cons (s : String) (b : Bool) (l : List Event) :
    ordersOf (Event.trendCheck s b :: l) = ordersOf l := rfl

/-- The order step once a positive effective price is found, with the
`shares` binding substituted. -/
lemma tryOrderStep_eq_pos (env : Env) (sym : String) (q : Quote)
    (hq : env.quote sym = .ok (some q)) (p : ℚ)
    (heff : effectivePrice q = some p) (hpos : 0 < p) :
    tryOrderStep env sym =
      if (⌊DCA_AMOUNT / p⌋ : ℤ) ≤ 0 then ([], 0)
      else
        match env.order sym (⌊DCA_AMOUNT / p⌋ : ℤ).toNat with
        | .error _ => ([Event.orderCall sym (⌊DCA_AMOUNT / p⌋ : ℤ).toNat,
            Event.errorCaught sym], 0)
        | .ok none => ([Event.orderCall sym (⌊DCA_AMOUNT / p⌋ : ℤ).toNat], 0)
        | .ok (some _) =>
            ([Event.orderCall sym (⌊DCA_AMOUNT / p⌋ : ℤ).toNat], 1) := by
  unfold tryOrderStep
  rw [hq]
  simp only [quoteGuard]
  rw [heff]
  simp only [priceGuard]
  rw [if_neg (not_le.mpr hpos)]
  rfl

/-- C3: per-symbol order sizing in `run`: the effective price is
last-or-ask-or-bid in that priority, the symbol is skipped without an
order when no positive price results or the integer quantity
⌊budget / price⌋ is zero, and otherwise exactly one buy order for that
quantity is submitted. -/
theorem order_step_spec (env : Env) (sym : String) (q : Quote)
    (hup : is_in_uptrend env sym = true)
    (hq : env.quote sym = .ok (some q)) :
    (∀ p : ℚ, effectivePrice q = some p → 0 < p →
      ((1 ≤ ⌊DCA_AMOUNT / p⌋ →
        ordersOf (processSymbol env sym).fst
          = [(sym, (⌊DCA_AMOUNT / p⌋ : ℤ).toNat)]) ∧
       (⌊DCA_AMOUNT / p⌋ = 0 →
        ordersOf (processSymbol env sym).fst = []))) ∧
    (effectivePrice q = none →
      ordersOf (processSymbol env sym).fst = []) ∧
    (∀ p : ℚ, effectivePrice q = some p → p ≤ 0 →
      ordersOf (processSymbol env sym).fst = []) ∧
    (∀ lp : ℚ, q.last_price = some lp → lp ≠ 0 →
      effectivePrice q = some lp) ∧
    (∀ ap : ℚ, q.last_price = none → q.ask_price = some ap → ap ≠ 0 →
      effectivePrice q = some ap) ∧
    (q.last_price = none → q.ask_price = none →
      effectivePrice q = q.bid_price) := by
  have hps : ordersOf (processSymbol env sym).fst
      = ordersOf (tryOrderStep env sym).fst := by
    rw [processSymbol_of_uptrend env sym hup, ordersOf_trend_cons]
  refine ⟨?_, ?_, ?_, ?_, ?_, ?_⟩
  · intro p heff hpos
    rw [hps, tryOrderStep_eq_pos env sym q hq p heff hpos]
    constructor
    · intro hsh
      rw [if_neg (by omega)]
      cases ho : env.order sym (⌊DCA_AMOUNT / p⌋ : ℤ).toNat with
      | error e => rfl
      | ok v =>
        cases v with
        | none => rfl
        | some o => rfl
    · intro hsh
      rw [if_pos (by omega)]
      rfl
  · intro heff
    rw [hps]
    unfold tryOrderStep
    rw [hq]
    simp only [quoteGuard]
    rw [heff]
    rfl
  · intro p heff hple
    rw [hps]
    unfold tryOrderStep
    rw [hq]
    simp only [quoteGuard]
    rw [heff]
    simp only [priceGuard]
    rw [if_pos hple]
    rfl
  · intro lp hlast hlp0
    simp [effectivePrice, pyOr, hlast, hlp0]
  · intro ap hlast hask hap0
    simp [effectivePrice, pyOr, hlast, hask, hap0]
  · intro hlast hask
    simp [effectivePrice, pyOr, hlast, hask]

/-- Witness for C3: a $45 last price buys ⌊100 / 45⌋ = 2 shares. -/
theorem order_step_spec_witness :
    ordersOf (processSymbol envPartial "NVDA").fst
      = [("NVDA", (⌊DCA_AMOUNT / (45 : ℚ)⌋ : ℤ).toNat)] ∧
    (⌊DCA_AMOUNT / (45 : ℚ)⌋ : ℤ).toNat = 2 := by
  have hup : is_in_uptrend envPartial "NVDA" = true := by
    have hb : envPartial.bars "NVDA" = .ok (some upBars) := rfl
    rw [is_in_uptrend_eq, hb]
    norm_num [get_historical_closes, upBars, pyLast, calculate_sma, mean,
      lastSlice, SMA_PERIOD]
  refine ⟨((order_step_spec envPartial "NVDA" ⟨some 45, none, none⟩ hup
      rfl).1 45 rfl (by norm_num)).1
      (by norm_num [DCA_AMOUNT, Int.le_floor]), ?_⟩
  have hfl : (⌊DCA_AMOUNT / (45 : ℚ)⌋ : ℤ) = 2 := by
    norm_num [DCA_AMOUNT, Int.floor_eq_iff]
  rw [hfl]
  rfl
